import Mathlib

/-!
Verification of the diff-indexing / suggestion-validation core of
`.github/scripts/pr_analyzer.py`.

The Python functions are shallowly embedded as Lean functions:
strings are Lean `String`s, Python `dict`s become insertion-ordered
association lists (faithful to CPython's insertion-ordered dicts,
including replace-in-place semantics of key assignment), and fallible
code returns `Option`.  Python string primitives (`startswith`,
`strip`, slicing, `splitlines`) are modelled on the character list
`String.data`; `splitlines` is modelled for the separators `\n`,
`\r\n` and `\r` (the only ones occurring in diff text).
-/

set_option maxRecDepth 4000

namespace PrAnalyzer

/-- Python `s.startswith(pre)`. -/
def pyStartsWith (s pre : String) : Bool :=
  pre.data.isPrefixOf s.data

/-- Python whitespace for `str.strip()` (ASCII subset used by the script). -/
def pyIsSpace (c : Char) : Bool :=
  c = ' ' || c = '\t' || c = '\n' || c = '\r'

/-- Python `s.strip()` (also used for `.strip()` on diff content lines). -/
def pyStrip (s : String) : String :=
  ⟨((s.data.dropWhile (pyIsSpace ·)).reverse.dropWhile (pyIsSpace ·)).reverse⟩

/-- Python `s[n:]` (slicing by code points). -/
def pyDrop (s : String) (n : Nat) : String :=
  ⟨s.data.drop n⟩

/-- Python `s.rstrip('\n')`. -/
def rstripNl (s : String) : String :=
  ⟨(s.data.reverse.dropWhile (· = '\n')).reverse⟩

/-- Python `str.splitlines` on a character list (with the current line
accumulated in reverse), for the separators `\n`, `\r\n` and `\r`:
a separator emits the current line, and the final line is emitted only
when nonempty (no trailing empty line). -/
def splitlinesAux : List Char → List Char → List (List Char)
  | acc, [] => if acc.isEmpty then [] else [acc.reverse]
  | acc, '\n' :: cs => acc.reverse :: splitlinesAux [] cs
  | acc, '\r' :: '\n' :: cs => acc.reverse :: splitlinesAux [] cs
  | acc, '\r' :: cs => acc.reverse :: splitlinesAux [] cs
  | acc, c :: cs => splitlinesAux (c :: acc) cs

/-- Python `s.splitlines()`. -/
def splitlines (s : String) : List String :=
  (splitlinesAux [] s.data).map (fun l => ⟨l⟩)

/-- Leading decimal digit run converted to a number (helper for the
hunk-header regex). -/
def digitsVal : List Char → Nat → Nat
  | c :: cs, acc => if c.isDigit then digitsVal cs (acc * 10 + (c.toNat - '0'.toNat)) else acc
  | [], acc => acc

/-- Whether the list starts with at least one decimal digit. -/
def headIsDigit : List Char → Bool
  | c :: _ => c.isDigit
  | [] => false

/-- Python `re.search(r"\+(\d+)", line)`: the leftmost occurrence of `+`
followed by one or more digits, returning the digit group's value. -/
def findPlusNum : List Char → Option Nat
  | [] => none
  | c :: cs =>
    if c = '+' && headIsDigit cs then some (digitsVal cs 0)
    else findPlusNum cs

/-- Python `d[k]`-style lookup in an insertion-ordered dict modelled as an
association list (`None` when absent; also models `k in d` and `d.get(k)`). -/
def dictGet {α β : Type} [BEq α] : List (α × β) → α → Option β
  | [], _ => none
  | (k', v) :: rest, k => if k' == k then some v else dictGet rest k

/-- Python `d[k] = v`: replace in place when the key is present (keeping its
insertion position), otherwise append. -/
def dictInsert {α β : Type} [BEq α] : List (α × β) → α → β → List (α × β)
  | [], k, v => [(k, v)]
  | (k', v') :: rest, k, v =>
    if k' == k then (k, v) :: rest else (k', v') :: dictInsert rest k v

/-- Python `d[k] = f(d[k])`-style update of the (unique) entry for `k`;
no-op when the key is absent (the script only updates present keys). -/
def dictUpdate {β : Type} : List (String × β) → String → (β → β) → List (String × β)
  | [], _, _ => []
  | (k', v) :: rest, k, f =>
    if k' == k then (k', f v) :: rest else (k', v) :: dictUpdate rest k f

/-- The per-file Added-Line Index: new-side line number ↦ added content,
in insertion order (CPython dict iteration order). -/
abbrev FileIndex := List (Nat × String)

/-- The whole Added-Line Index: file path ↦ per-file index. -/
abbrev AddedIndex := List (String × FileIndex)

/-- The loop state of `build_added_lines_index`: the accumulated result,
the current file (`current_file`), the fenced-block flag (`inside`) and
the new-side line counter (`new_line_no`). -/
structure IndexState where
  result : AddedIndex
  current_file : Option String
  inside : Bool
  new_line_no : Option Nat
deriving Repr, DecidableEq

/-- One iteration of the loop body of `build_added_lines_index` on a raw
line of the patch text. -/
def stepLine (st : IndexState) (raw : String) : IndexState :=
  let line := rstripNl raw
  if pyStartsWith line "### " then
    let f := pyStrip (pyDrop line 4)
    { st with current_file := some f, result := dictInsert st.result f [] }
  else if pyStartsWith line "```diff" then
    { st with inside := true }
  else if pyStartsWith line "```" && st.inside then
    { st with inside := false, current_file := none, new_line_no := none }
  else
    match st.current_file, st.inside with
    | some f, true =>
      if pyStartsWith line "@@" then
        match findPlusNum line.data with
        | some n => { st with new_line_no := some n }
        | none => st
      else
        match st.new_line_no with
        | none => st
        | some n =>
          if pyStartsWith line "+" && !pyStartsWith line "+++" then
            { st with
                result := dictUpdate st.result f (fun m => dictInsert m n (pyDrop line 1)),
                new_line_no := some (n + 1) }
          else if pyStartsWith line "-" && !pyStartsWith line "---" then
            st
          else
            { st with new_line_no := some (n + 1) }
    | _, _ => st

/-- The loop of `build_added_lines_index` over the patch's lines. -/
def runLines (st : IndexState) : List String → IndexState
  | [] => st
  | l :: ls => runLines (stepLine st l) ls

/-- Function `build_added_lines_index(patch)`: the Added-Line Index of a patch text. -/
def build_added_lines_index (patch : String) : AddedIndex :=
  (runLines ⟨[], none, false, none⟩ (splitlines patch)).result

/-- The fixed two-file patch of spec §8. -/
def patchC2 : String :=
  "### A\n```diff\n@@ -1,3 +1,4 @@\n ctx1\n+foo\n ctx2\n```\n" ++
  "### B\n```diff\n@@ -5,2 +6,2 @@\n+bar\n```"

/-- The `candidates` list of the multi-line branch of
`find_sequence_in_added`: the line numbers whose trimmed content equals
`first`, in the file map's insertion order. -/
def seqCandidates (file_lines_map : FileIndex) (first : String) : List Nat :=
  (file_lines_map.filter (fun p => pyStrip p.2 == first)).map (·.1)

/-- The inner loop of the multi-line branch of `find_sequence_in_added`:
`for offset, line_text in enumerate(original_lines)`, checking
`file_lines_map.get(start_ln + offset)` against each line, trimmed. -/
def checkSeqFrom (m : FileIndex) : Nat → List String → Bool
  | _, [] => true
  | ln, t :: ts =>
    match dictGet m ln with
    | none => false
    | some content => pyStrip content == pyStrip t && checkSeqFrom m (ln + 1) ts

/-- Function `find_sequence_in_added(file_lines_map, original_lines, allow_multi_line)`. -/
def find_sequence_in_added (file_lines_map : FileIndex)
    (original_lines : List String) (allow_multi_line : Bool) : Option Nat :=
  if !allow_multi_line && original_lines.length > 1 then none
  else
    match original_lines with
    | [o] =>
      let target := pyStrip o
      (file_lines_map.find? (fun p => pyStrip p.2 == target)).map (·.1)
    | o :: _ =>
      let candidates := seqCandidates file_lines_map (pyStrip o)
      candidates.find? (fun start_ln => checkSeqFrom file_lines_map start_ln original_lines)
    | [] =>
      -- The Python function would raise IndexError on `original_lines[0]`
      -- here; it is unreachable: the only caller has already rejected
      -- empty `original` lists.
      none

/-- A raw model suggestion record.  `none` in `file`, `original` or
`replacement` models the key being absent or (for the lists) its value not
being a Python list — both paths drop the suggestion identically in the
source (`KeyError` caught by the bare `except`, resp. the `isinstance`
check). -/
structure RawSuggestion where
  id : Option String := none
  file : Option String := none
  severity : Option String := none
  type : Option String := none
  categories : Option (List String) := none
  original : Option (List String) := none
  replacement : Option (List String) := none
  rationale : Option String := none
deriving Repr, DecidableEq

/-- A suggestion accepted by the validator, augmented with the resolved
`_line_start` / `_line_end` fields; the well-formed components
(`file`, `original`, `replacement`) are carried explicitly. -/
structure ValidatedSuggestion where
  sug : RawSuggestion
  file : String
  original : List String
  replacement : List String
  line_start : Nat
  line_end : Nat
deriving Repr, DecidableEq

/-- The body of the `for s in suggestions` loop of
`validate_and_localize_suggestions`: `none` models `continue`. -/
def validate_one (added_index : AddedIndex) (allow_multi_line : Bool)
    (s : RawSuggestion) : Option ValidatedSuggestion :=
  match s.file, s.original, s.replacement with
  | some file, some original_lines, some replacement =>
    if original_lines.length = 0 ∨ original_lines.length ≠ replacement.length then none
    else
      match dictGet added_index file with
      | none => none
      | some file_lines_map =>
        match find_sequence_in_added file_lines_map original_lines allow_multi_line with
        | none => none
        | some match_start =>
          some ⟨s, file, original_lines, replacement,
                match_start, match_start + original_lines.length - 1⟩
  | _, _, _ => none

/-- Function `validate_and_localize_suggestions(model_data, added_index, allow_multi_line)`.
The argument `suggestions?` models `model_data.get("suggestions") or []`
followed by the `isinstance(..., list)` check: `none` stands for a missing,
falsy or non-list value. -/
def validate_and_localize_suggestions (suggestions? : Option (List RawSuggestion))
    (added_index : AddedIndex) (allow_multi_line : Bool) : List ValidatedSuggestion :=
  match suggestions? with
  | none => []
  | some suggestions => suggestions.filterMap (validate_one added_index allow_multi_line)

/-- Function `truncate(text, max_len)` from the rendering layer. -/
def truncate (text : String) (max_len : Nat) : String :=
  if text.length ≤ max_len then text else ⟨text.data.take (max_len - 3)⟩ ++ "..."

/-- One row of the summary table of `build_main_comment`. -/
def tableRow (s : ValidatedSuggestion) : String :=
  "| " ++ s.sug.id.getD "?" ++ " | " ++ s.file ++ " | " ++
  s.sug.severity.getD "?" ++ " | " ++ s.sug.type.getD "?" ++ " | " ++
  toString s.line_start ++ ".." ++ toString s.line_end ++ " | " ++
  truncate (s.sug.rationale.getD "") 80 ++ " |"

/-- Function `build_main_comment(model_data, validated, marker)`; `summary` and
`verdict` are `model_data.get("summary", ...)` / `.get("verdict", ...)`
already resolved with their defaults. -/
def build_main_comment (summary verdict : String)
    (validated : List ValidatedSuggestion) (marker : String) : String :=
  let table_rows :=
    if validated.isEmpty then
      ["_Nenhuma sugestão validada com base no diff._"]
    else
      "| ID | Arquivo | Severidade | Tipo | Linhas | Resumo |" ::
      "|----|---------|------------|------|--------|--------|" ::
      validated.map tableRow
  "<!-- " ++ marker ++
  (" -->\n\n**Análise Automatizada (LLM)**\n\n**Resumo:** " ++ summary ++
   "\n\n**Veredito:** " ++ verdict ++
   "\n\n### Sugestões Validadas\n" ++ String.intercalate "\n" table_rows ++
   "\n\n_Cada sugestão inline pode ser aplicada manualmente via 'Apply suggestion'._")

/-- Whether an existing comment body matches
`c.body.startswith(f"<!-- marker")` in `upsert_main_comment`. -/
def isMarked (marker body : String) : Bool :=
  pyStartsWith body ("<!-- " ++ marker)

/-- Function `upsert_main_comment(pr, body, marker)` as a transformation of the
pull request's list of comment bodies: edit the first comment starting
with the marker, else create a new one at the end. -/
def upsert_main_comment (comments : List String) (body marker : String) : List String :=
  match comments with
  | [] => [body]
  | c :: rest =>
    if isMarked marker c then body :: rest
    else c :: upsert_main_comment rest body marker

/-- One element of the `comments_payload` list built by `create_inline_review`:
`start_line` is present only for the multi-line range form (`side` fields,
always "RIGHT", are omitted). -/
structure InlinePayload where
  path : String
  body : String
  start_line : Option Nat
  line : Nat
deriving Repr, DecidableEq

/-- The inline comment body built for one validated suggestion inside
`create_inline_review`. -/
def inlineBody (s : ValidatedSuggestion) : String :=
  let replacement_text := String.intercalate "\n" s.replacement
  let suggestion_block := "```suggestion\n" ++ replacement_text ++ "\n```"
  let header := s.sug.id.getD "" ++ " (" ++ s.sug.severity.getD "" ++ "/" ++
    s.sug.type.getD "" ++ ")"
  header ++ "\n\n" ++ s.sug.rationale.getD "" ++ "\n\n" ++ suggestion_block

/-- The `comments_payload` list built by `create_inline_review` before the
publishing call. -/
def inline_comments_payload (validated : List ValidatedSuggestion)
    (allow_multi_line : Bool) : List InlinePayload :=
  validated.map (fun s =>
    if allow_multi_line && s.line_end > s.line_start then
      { path := s.file, body := inlineBody s,
        start_line := some s.line_start, line := s.line_end }
    else
      { path := s.file, body := inlineBody s, start_line := none, line := s.line_start })

/-! ### Model of `json.loads` and `extract_first_json`

`json.loads` is a Python standard-library call; it is modelled here by a
recursive-descent parser for the JSON subset the script exchanges
(objects, arrays, strings with the standard escapes, integers, booleans,
null, with JSON whitespace).  Floats, duplicate-key collapsing and the
strict control-character check of the real parser are outside the
modelled subset. -/

/-- JSON values. -/
inductive JVal where
  | jnull
  | jbool (b : Bool)
  | jnum (n : Int)
  | jstr (s : String)
  | jarr (xs : List JVal)
  | jobj (kvs : List (String × JVal))
deriving Repr, BEq

/-- JSON inter-token whitespace. -/
def jsonWs (c : Char) : Bool :=
  c = ' ' || c = '\t' || c = '\n' || c = '\r'

/-- Skip JSON whitespace. -/
def skipWs (cs : List Char) : List Char :=
  cs.dropWhile jsonWs

/-- Value of a hexadecimal digit. -/
def hexVal (c : Char) : Option Nat :=
  if c.isDigit then some (c.toNat - 48)
  else if 'a' ≤ c ∧ c ≤ 'f' then some (c.toNat - 87)
  else if 'A' ≤ c ∧ c ≤ 'F' then some (c.toNat - 55)
  else none

/-- Single-character JSON string escapes. -/
def escChar (c : Char) : Option Char :=
  if c = '"' then some '"'
  else if c = '\\' then some '\\'
  else if c = '/' then some '/'
  else if c = 'b' then some '\x08'
  else if c = 'f' then some '\x0c'
  else if c = 'n' then some '\n'
  else if c = 'r' then some '\x0d'
  else if c = 't' then some '\t'
  else none

/-- JSON string body (after the opening quote), with an accumulator. -/
def parseStringAux : List Char → List Char → Option (String × List Char)
  | _, [] => none
  | acc, '"' :: rest => some (⟨acc.reverse⟩, rest)
  | acc, '\\' :: 'u' :: h1 :: h2 :: h3 :: h4 :: rest =>
    match hexVal h1, hexVal h2, hexVal h3, hexVal h4 with
    | some a, some b, some c, some d =>
      parseStringAux (Char.ofNat (((a * 16 + b) * 16 + c) * 16 + d) :: acc) rest
    | _, _, _, _ => none
  | acc, '\\' :: e :: rest =>
    match escChar e with
    | some d => parseStringAux (d :: acc) rest
    | none => none
  | acc, c :: rest => parseStringAux (c :: acc) rest

/-- A nonempty decimal digit run and the remaining characters. -/
def parseNat (cs : List Char) : Option (Nat × List Char) :=
  match cs.takeWhile Char.isDigit with
  | [] => none
  | ds => some (digitsVal ds 0, cs.dropWhile Char.isDigit)

mutual

/-- JSON value parser (fuel-indexed to bound nesting). -/
def parseVal : Nat → List Char → Option (JVal × List Char)
  | 0, _ => none
  | fuel + 1, cs =>
    match skipWs cs with
    | 'n' :: 'u' :: 'l' :: 'l' :: rest => some (.jnull, rest)
    | 't' :: 'r' :: 'u' :: 'e' :: rest => some (.jbool true, rest)
    | 'f' :: 'a' :: 'l' :: 's' :: 'e' :: rest => some (.jbool false, rest)
    | '"' :: rest => (parseStringAux [] rest).map (fun p => (.jstr p.1, p.2))
    | '[' :: rest =>
      match skipWs rest with
      | ']' :: r2 => some (.jarr [], r2)
      | r2 => (parseArrItems fuel r2).map (fun p => (.jarr p.1, p.2))
    | '\x7b' :: rest =>
      match skipWs rest with
      | '\x7d' :: r2 => some (.jobj [], r2)
      | r2 => (parseObjItems fuel r2).map (fun p => (.jobj p.1, p.2))
    | '-' :: rest => (parseNat rest).map (fun p => (.jnum (-(p.1 : Int)), p.2))
    | c :: rest =>
      if c.isDigit then (parseNat (c :: rest)).map (fun p => (.jnum (p.1 : Int), p.2))
      else none
    | [] => none

/-- Comma-separated array items up to the closing bracket. -/
def parseArrItems : Nat → List Char → Option (List JVal × List Char)
  | 0, _ => none
  | fuel + 1, cs =>
    match parseVal fuel cs with
    | none => none
    | some (v, r) =>
      match skipWs r with
      | ',' :: r2 => (parseArrItems fuel r2).map (fun p => (v :: p.1, p.2))
      | ']' :: r2 => some ([v], r2)
      | _ => none

/-- Comma-separated `"key": value` object items up to the closing brace. -/
def parseObjItems : Nat → List Char → Option (List (String × JVal) × List Char)
  | 0, _ => none
  | fuel + 1, cs =>
    match skipWs cs with
    | '"' :: r =>
      match parseStringAux [] r with
      | none => none
      | some (k, r2) =>
        match skipWs r2 with
        | ':' :: r3 =>
          match parseVal fuel r3 with
          | none => none
          | some (v, r4) =>
            match skipWs r4 with
            | ',' :: r5 => (parseObjItems fuel r5).map (fun p => ((k, v) :: p.1, p.2))
            | '\x7d' :: r5 => some ([(k, v)], r5)
            | _ => none
        | _ => none
    | _ => none

end

/-- Python `json.loads(text)` on the modelled subset: a full parse of the text,
allowing surrounding whitespace. -/
def json_loads (text : String) : Option JVal :=
  match parseVal (2 * text.data.length + 2) text.data with
  | some (v, rest) => if skipWs rest = [] then some v else none
  | none => none

/-- The fallback object returned by `extract_first_json` on parse failure. -/
def fallbackJson : JVal :=
  .jobj [("summary", .jstr "Falha ao parsear JSON retornado pelo modelo."),
         ("verdict", .jstr "Needs Work"),
         ("suggestions", .jarr [])]

/-- Python `text.find(c)`. -/
def firstIdxOf (cs : List Char) (c : Char) : Option Nat :=
  cs.findIdx? (· = c)

/-- Python `text.rfind(c)`. -/
def lastIdxOf (cs : List Char) (c : Char) : Option Nat :=
  match cs.reverse.findIdx? (· = c) with
  | some i => some (cs.length - 1 - i)
  | none => none

/-- The second attempt of `extract_first_json`: `json.loads` of
`text[first_open : last_close + 1]` when
`first_open != -1 and last_close != -1 and last_close > first_open`. -/
def braceAttempt (t : String) : Option JVal :=
  match firstIdxOf t.data '\x7b', lastIdxOf t.data '\x7d' with
  | some first_open, some last_close =>
    if first_open < last_close then
      json_loads ⟨(t.data.drop first_open).take (last_close + 1 - first_open)⟩
    else none
  | _, _ => none

/-- Function `extract_first_json(text)`. -/
def extract_first_json (text : String) : JVal :=
  let t := pyStrip text
  let attempt1 : Option JVal :=
    if pyStartsWith t "\x7b" then json_loads t else none
  match attempt1 with
  | some v => v
  | none =>
    match braceAttempt t with
    | some v => v
    | none => fallbackJson

/-- Modelled from the spec: the spec's "first balanced JSON object" of a
text — the substring starting at the first `\x7b` and ending at the brace
that balances it (plain brace counting).  Used only to compare the spec's
description of `extract_first_json` with the code's heuristic. -/
def balancedScan : List Char → Nat → List Char → Option (List Char)
  | [], _, _ => none
  | c :: cs, depth, acc =>
    if c = '\x7b' then balancedScan cs (depth + 1) (c :: acc)
    else if c = '\x7d' then
      if depth = 1 then some (c :: acc).reverse
      else balancedScan cs (depth - 1) (c :: acc)
    else balancedScan cs depth (c :: acc)

/-- Modelled from the spec: the first balanced JSON object substring. -/
def firstBalancedObject (t : String) : Option String :=
  match t.data.dropWhile (· ≠ '\x7b') with
  | [] => none
  | cs => (balancedScan cs 0 []).map (fun l => ⟨l⟩)

/-! ### Specification-side predicates -/

/-- Content `c` is the content of some added line of the patch (a line starting
with `+` but not `+++`, with the marker stripped). -/
def AddedLine (lines : List String) (c : String) : Prop :=
  ∃ l ∈ lines, pyStartsWith l "+" = true ∧ pyStartsWith l "+++" = false ∧ c = pyDrop l 1

/-- Every content recorded in an Added-Line Index is the content of an
added line of the patch. -/
def EntriesAdded (lines : List String) (res : AddedIndex) : Prop :=
  ∀ p ∈ res, ∀ e ∈ p.2, AddedLine lines e.2

/-- A contiguous trimmed match of `original` in the file map starting at
new-side line `start`: for every offset `i` the map contains line
`start + i` with trimmed content equal to the trimmed `i`-th line. -/
def SeqMatchesAt (m : FileIndex) (start : Nat) (original : List String) : Prop :=
  ∀ i, (hi : i < original.length) →
    ∃ c, dictGet m (start + i) = some c ∧ pyStrip c = pyStrip (original.get ⟨i, hi⟩)

/-- The rejection rules (a)-(e) of the Suggestion Validator, as the spec
states them: (a) missing required fields; (b) `original`/`replacement`
not both sequences of equal non-zero length; (c) target file absent from
the Added-Line Index; (d) multi-line while multi-line mode is disabled;
(e) the Sequence Matcher reports "not found". -/
def violatesRules (added_index : AddedIndex) (allow_multi_line : Bool)
    (s : RawSuggestion) : Bool :=
  match s.file, s.original, s.replacement with
  | some file, some original, some replacement =>
    (original.length == 0 || original.length != replacement.length) ||
    (dictGet added_index file).isNone ||
    (!allow_multi_line && decide (1 < original.length)) ||
    (match dictGet added_index file with
     | some m => (find_sequence_in_added m original allow_multi_line).isNone
     | none => true)
  | _, _, _ => true

/-! ### Concrete scenario inputs -/

/-- The Added-Line Index of spec §8 used by the validation scenario. -/
def indexAB : AddedIndex := [("A", [(2, "foo")]), ("B", [(6, "bar")])]

/-- The scenario suggestion of spec §8. -/
def sugFoo : RawSuggestion :=
  { id := some "S001", file := some "A", severity := some "low",
    type := some "improvement", original := some ["foo"],
    replacement := some ["foobar"], rationale := some "melhoria" }

/-- A patch with a malformed hunk header (`@@` with no `+N` group) in the
middle of a fenced block. -/
def c6patch : String :=
  "### A\n```diff\n@@ -1,1 +1,2 @@\n+x\n@@ bad @@\n+y\n```"

/-- A patch in which a new file-path marker appears inside a still-open
fenced block, after a hunk header has set the counter. -/
def c7patch : String :=
  "### A\n```diff\n@@ -3,1 +2,1 @@\n### B\n+x\n```"

/-- A text whose first balanced JSON object parses, but which defeats the
two parsing attempts of `extract_first_json`. -/
def cBadJson : String := "\x7b\x7d \x7b\x7d"

/-! ### Helper lemmas -/

theorem pyStartsWith_append (s t : String) : pyStartsWith (s ++ t) s = true := by
  rw [pyStartsWith, String.data_append, List.isPrefixOf_iff_prefix]
  exact List.prefix_append _ _

theorem pyStartsWith_append_assoc (s t u : String) :
    pyStartsWith (s ++ t ++ u) s = true := by
  rw [String.append_assoc]
  exact pyStartsWith_append s (t ++ u)

theorem dictGet_mem {α β : Type} [BEq α] [LawfulBEq α]
    {m : List (α × β)} {k : α} {v : β} (h : dictGet m k = some v) : (k, v) ∈ m := by
  induction m with
  | nil => simp [dictGet] at h
  | cons p rest ih =>
    obtain ⟨k', v'⟩ := p
    rw [dictGet] at h
    by_cases hk : k' == k
    · rw [if_pos hk] at h
      cases h
      exact (eq_of_beq hk) ▸ List.mem_cons_self _ _
    · rw [if_neg hk] at h
      exact List.mem_cons_of_mem _ (ih h)

theorem mem_dictInsert {α β : Type} [BEq α] {m : List (α × β)} {k : α} {v : β}
    {p : α × β} (h : p ∈ dictInsert m k v) : p ∈ m ∨ p = (k, v) := by
  induction m with
  | nil => simpa [dictInsert] using h
  | cons q rest ih =>
    obtain ⟨k', v'⟩ := q
    rw [dictInsert] at h
    by_cases hk : k' == k
    · rw [if_pos hk] at h
      rcases List.mem_cons.1 h with h | h
      · exact Or.inr h
      · exact Or.inl (List.mem_cons_of_mem _ h)
    · rw [if_neg hk] at h
      rcases List.mem_cons.1 h with h | h
      · exact Or.inl (h ▸ List.mem_cons_self _ _)
      · rcases ih h with h | h
        · exact Or.inl (List.mem_cons_of_mem _ h)
        · exact Or.inr h

theorem mem_dictUpdate {β : Type} {m : List (String × β)} {k : String}
    {f : β → β} {p : String × β} (h : p ∈ dictUpdate m k f) :
    p ∈ m ∨ ∃ v, (k, v) ∈ m ∧ p = (k, f v) := by
  induction m with
  | nil => simp [dictUpdate] at h
  | cons q rest ih =>
    obtain ⟨k', v'⟩ := q
    rw [dictUpdate] at h
    by_cases hk : k' == k
    · rw [if_pos hk] at h
      rcases List.mem_cons.1 h with h | h
      · exact Or.inr ⟨v', (eq_of_beq hk) ▸ List.mem_cons_self _ _,
          by rw [h, eq_of_beq hk]⟩
      · exact Or.inl (List.mem_cons_of_mem _ h)
    · rw [if_neg hk] at h
      rcases List.mem_cons.1 h with h | h
      · exact Or.inl (h ▸ List.mem_cons_self _ _)
      · rcases ih h with h | ⟨v, hv, hp⟩
        · exact Or.inl (List.mem_cons_of_mem _ h)
        · exact Or.inr ⟨v, List.mem_cons_of_mem _ hv, hp⟩

theorem find?_eq_some_split {α : Type} {p : α → Bool} {l : List α} {a : α}
    (h : l.find? p = some a) :
    p a = true ∧ ∃ l₁ l₂, l = l₁ ++ a :: l₂ ∧ ∀ x ∈ l₁, p x = false := by
  induction l with
  | nil => simp [List.find?] at h
  | cons b l ih =>
    rw [List.find?] at h
    cases hb : p b with
    | true =>
      rw [hb] at h
      simp only [Option.some.injEq] at h
      subst h
      exact ⟨hb, [], l, rfl, by simp⟩
    | false =>
      rw [hb] at h
      simp only at h
      obtain ⟨hpa, l₁, l₂, rfl, hl₁⟩ := ih h
      exact ⟨hpa, b :: l₁, l₂, rfl, by simpa [hb] using hl₁⟩

/-- C2: the Diff Indexer on the fixed two-file patch of §8 (file A with
hunk header `@@ -1,3 +1,4 @@`, a context line, the added line `+foo`, a
context line; file B with hunk header `@@ -5,2 +6,2 @@` and the added
line `+bar`) produces exactly the index A ↦ (2 ↦ "foo"), B ↦ (6 ↦ "bar"). -/
theorem indexer_round_trip_two_file_patch :
    build_added_lines_index patchC2 = [("A", [(2, "foo")]), ("B", [(6, "bar")])] := by
  decide

/-- Lines produced by `splitlinesAux` contain no newline character
(provided the accumulated current line contains none). -/
theorem splitlinesAux_no_nl (acc cs : List Char) (hacc : '\n' ∉ acc) :
    ∀ l ∈ splitlinesAux acc cs, '\n' ∉ l := by
  induction acc, cs using splitlinesAux.induct with
  | case1 acc h => simp [splitlinesAux, h]
  | case2 acc h =>
    intro l hl
    rw [splitlinesAux, if_neg h] at hl
    simp only [List.mem_singleton] at hl
    subst hl
    simpa using hacc
  | case3 acc cs ih =>
    intro l hl
    rw [splitlinesAux] at hl
    rcases List.mem_cons.1 hl with rfl | hl
    · simpa using hacc
    · exact ih (by simp) l hl
  | case4 acc cs ih =>
    intro l hl
    rw [splitlinesAux] at hl
    rcases List.mem_cons.1 hl with rfl | hl
    · simpa using hacc
    · exact ih (by simp) l hl
  | case5 acc cs h ih =>
    intro l hl
    rw [splitlinesAux] at hl
    · rcases List.mem_cons.1 hl with rfl | hl
      · simpa using hacc
      · exact ih (by simp) l hl
    · exact h
  | case6 acc c cs h1 h2 h3 ih =>
    intro l hl
    rw [splitlinesAux] at hl
    · refine ih ?_ l hl
      intro hmem
      rcases List.mem_cons.1 hmem with rfl | hmem
      · exact h1 rfl
      · exact hacc hmem
    · exact h1
    · exact h2
    · exact h3

/-- Function `dropWhile` is the identity when no element satisfies the predicate. -/
theorem dropWhile_eq_self_of_not {α : Type} {p : α → Bool} (l : List α)
    (h : ∀ c ∈ l, ¬(p c = true)) : l.dropWhile p = l := by
  cases l with
  | nil => rfl
  | cons a t =>
    rw [List.dropWhile_cons_of_neg]
    exact h a (List.mem_cons_self _ _)

/-- `rstrip('\n')` is the identity on a string without newlines. -/
theorem rstripNl_eq_self (s : String) (h : '\n' ∉ s.data) : rstripNl s = s := by
  obtain ⟨data⟩ := s
  simp only [rstripNl]
  have hrev : ∀ c ∈ data.reverse, ¬((decide (c = '\n')) = true) := by
    intro c hc
    simp only [decide_eq_true_eq]
    intro hcn
    exact h (hcn ▸ List.mem_reverse.1 hc)
  rw [dropWhile_eq_self_of_not _ hrev, List.reverse_reverse]

/-- Case analysis of one indexer step: the result component is unchanged,
or a file entry is (re)initialised empty, or the content of an added line
is recorded under the current file at the current counter. -/
theorem stepLine_result (st : IndexState) (l : String) :
    (stepLine st l).result = st.result ∨
    (∃ f, (stepLine st l).result = dictInsert st.result f []) ∨
    (∃ f n, st.current_file = some f ∧ st.inside = true ∧ st.new_line_no = some n ∧
      pyStartsWith (rstripNl l) "+" = true ∧ pyStartsWith (rstripNl l) "+++" = false ∧
      (stepLine st l).result =
        dictUpdate st.result f (fun m => dictInsert m n (pyDrop (rstripNl l) 1))) := by
  unfold stepLine
  by_cases h1 : pyStartsWith (rstripNl l) "### " = true
  · simp only [h1, if_pos]
    exact Or.inr (Or.inl ⟨pyStrip (pyDrop (rstripNl l) 4), rfl⟩)
  · simp only [eq_false_of_ne_true h1, if_false]
    by_cases h2 : pyStartsWith (rstripNl l) "```diff" = true
    · simp only [h2, if_pos]
      exact Or.inl rfl
    · simp only [eq_false_of_ne_true h2, if_false]
      by_cases h3 : (pyStartsWith (rstripNl l) "```" && st.inside) = true
      · simp only [h3, if_pos]
        exact Or.inl rfl
      · simp only [eq_false_of_ne_true h3, if_false]
        cases hcf : st.current_file with
        | none => exact Or.inl rfl
        | some f =>
          cases hin : st.inside with
          | false => exact Or.inl rfl
          | true =>
            simp only
            by_cases h4 : pyStartsWith (rstripNl l) "@@" = true
            · simp only [h4, if_pos]
              cases findPlusNum (rstripNl l).data with
              | none => exact Or.inl rfl
              | some n => exact Or.inl rfl
            · simp only [eq_false_of_ne_true h4, if_false]
              cases hn : st.new_line_no with
              | none => exact Or.inl rfl
              | some n =>
                by_cases h5 :
                    (pyStartsWith (rstripNl l) "+" && !pyStartsWith (rstripNl l) "+++") = true
                · simp only [h5, if_pos]
                  rcases Bool.and_eq_true_iff.1 h5 with ⟨h5a, h5b⟩
                  exact Or.inr (Or.inr ⟨f, n, rfl, trivial, rfl, h5a,
                    by simpa using h5b, rfl⟩)
                · simp only [eq_false_of_ne_true h5, if_false]
                  by_cases h6 :
                      (pyStartsWith (rstripNl l) "-" && !pyStartsWith (rstripNl l) "---") = true
                  · simp only [h6, if_pos]
                    exact Or.inl rfl
                  · simp only [eq_false_of_ne_true h6, if_false]
                    exact Or.inl rfl

/-- One indexer step preserves the invariant that every recorded content
is the content of an added line of the patch. -/
theorem stepLine_entries {lines : List String} {st : IndexState} {l : String}
    (hl : l ∈ lines) (hrs : rstripNl l = l)
    (hst : EntriesAdded lines st.result) :
    EntriesAdded lines (stepLine st l).result := by
  intro p hp e he
  rcases stepLine_result st l with hres | ⟨f, hres⟩ | ⟨f, n, _, _, _, hadd, hnot, hres⟩
  · exact hst p (hres ▸ hp) e he
  · rcases mem_dictInsert (hres ▸ hp) with hpm | rfl
    · exact hst p hpm e he
    · simp at he
  · rcases mem_dictUpdate (hres ▸ hp) with hpm | ⟨v, hv, rfl⟩
    · exact hst p hpm e he
    · rcases mem_dictInsert he with hem | rfl
      · exact hst (f, v) hv e hem
      · exact ⟨l, hl, hrs ▸ hadd, hrs ▸ hnot, by rw [hrs]⟩

/-- The indexer loop preserves the added-lines invariant. -/
theorem runLines_entries (lines : List String) :
    ∀ (ls : List String) (st : IndexState), (∀ l ∈ ls, l ∈ lines) →
      (∀ l ∈ ls, rstripNl l = l) →
      EntriesAdded lines st.result → EntriesAdded lines (runLines st ls).result
  | [], _, _, _, hst => hst
  | l :: ls, st, hsub, hrs, hst =>
    runLines_entries lines ls (stepLine st l)
      (fun x hx => hsub x (List.mem_cons_of_mem _ hx))
      (fun x hx => hrs x (List.mem_cons_of_mem _ hx))
      (stepLine_entries (hsub l (List.mem_cons_self _ _))
        (hrs l (List.mem_cons_self _ _)) hst)

/-- C1: every entry recorded in the Added-Line Index comes from a patch
line marked as added (a line starting with `+` but not `+++`), recorded
with the leading marker stripped; no context line and no removed line is
ever recorded under any file. -/
theorem added_index_only_added_lines (patch : String) (f : String)
    (m : FileIndex) (ln : Nat) (c : String)
    (hf : dictGet (build_added_lines_index patch) f = some m)
    (hc : dictGet m ln = some c) :
    ∃ l ∈ splitlines patch, pyStartsWith l "+" = true ∧
      pyStartsWith l "+++" = false ∧ c = pyDrop l 1 := by
  have hnl : ∀ l ∈ splitlines patch, rstripNl l = l := by
    intro l hlm
    rcases List.mem_map.1 hlm with ⟨cs, hcs, rfl⟩
    exact rstripNl_eq_self _ (splitlinesAux_no_nl [] patch.data (by simp) cs hcs)
  have hinv : EntriesAdded (splitlines patch) (build_added_lines_index patch) :=
    runLines_entries (splitlines patch) (splitlines patch) ⟨[], none, false, none⟩
      (fun _ hx => hx) hnl (by intro p hp e he; simp at hp)
  exact hinv (f, m) (dictGet_mem hf) (ln, c) (dictGet_mem hc)

/-- C1 witness: the entry 2 ↦ "foo" of file A in the index of the fixed
patch comes from an added line of that patch. -/
theorem added_index_only_added_lines_witness :
    ∃ l ∈ splitlines patchC2, pyStartsWith l "+" = true ∧
      pyStartsWith l "+++" = false ∧ "foo" = pyDrop l 1 :=
  added_index_only_added_lines patchC2 "A" [(2, "foo")] 2 "foo"
    (by decide) (by decide)

/-- The verification loop of the multi-line branch succeeds exactly when
every offset has a trimmed match in the file map. -/
theorem checkSeqFrom_eq_true_iff (m : FileIndex) :
    ∀ (ts : List String) (s : Nat),
      checkSeqFrom m s ts = true ↔
        ∀ i, (hi : i < ts.length) →
          ∃ c, dictGet m (s + i) = some c ∧ pyStrip c = pyStrip (ts.get ⟨i, hi⟩)
  | [], s => by simp [checkSeqFrom]
  | t :: ts, s => by
    rw [checkSeqFrom]
    cases hd : dictGet m s with
    | none =>
      simp only [Bool.false_eq_true, false_iff]
      intro h
      obtain ⟨c, hc, -⟩ := h 0 (by simp)
      rw [Nat.add_zero, hd] at hc
      exact Option.noConfusion hc
    | some c =>
      rw [Bool.and_eq_true_iff, beq_iff_eq, checkSeqFrom_eq_true_iff m ts (s + 1)]
      constructor
      · rintro ⟨hceq, hrest⟩ i hi
        cases i with
        | zero => exact ⟨c, by rw [Nat.add_zero]; exact hd, hceq⟩
        | succ j =>
          obtain ⟨c', hc', heq'⟩ := hrest j (by simpa using hi)
          refine ⟨c', ?_, heq'⟩
          rw [show s + (j + 1) = s + 1 + j from by omega]
          exact hc'
      · intro h
        obtain ⟨c0, hc0, heq0⟩ := h 0 (by simp)
        rw [Nat.add_zero, hd] at hc0
        cases hc0
        refine ⟨heq0, ?_⟩
        intro j hj
        obtain ⟨c', hc', heq'⟩ := h (j + 1) (by simpa using hj)
        refine ⟨c', ?_, heq'⟩
        rw [show s + 1 + j = s + (j + 1) from by omega]
        exact hc'

/-- Reduction of `find_sequence_in_added` in the single-line case. -/
theorem find_sequence_single_eq (m : FileIndex) (o : String) (allow_multi_line : Bool) :
    find_sequence_in_added m [o] allow_multi_line =
      (m.find? (fun p => pyStrip p.2 == pyStrip o)).map (·.1) := by
  cases allow_multi_line <;> rfl

/-- Reduction of `find_sequence_in_added` in the multi-line case. -/
theorem find_sequence_multi_eq (m : FileIndex) (o o1 : String) (os : List String) :
    find_sequence_in_added m (o :: o1 :: os) true =
      (seqCandidates m (pyStrip o)).find?
        (fun start_ln => checkSeqFrom m start_ln (o :: o1 :: os)) := rfl

/-- Membership in the candidate list of the multi-line branch. -/
theorem mem_seqCandidates_iff (m : FileIndex) (t : String) (s' : Nat) :
    s' ∈ seqCandidates m t ↔ ∃ c', (s', c') ∈ m ∧ pyStrip c' = t := by
  constructor
  · intro h
    rcases List.mem_map.1 h with ⟨p, hp, rfl⟩
    rcases List.mem_filter.1 hp with ⟨hm, hpred⟩
    exact ⟨p.2, hm, beq_iff_eq.1 hpred⟩
  · rintro ⟨c', hm, heq⟩
    exact List.mem_map.2 ⟨(s', c'),
      List.mem_filter.2 ⟨hm, beq_iff_eq.2 heq⟩, rfl⟩

/-- A start whose every offset matches is a candidate start. -/
theorem seqMatchesAt_mem_candidates {m : FileIndex} {start : Nat} {o : String}
    {os : List String} (h : SeqMatchesAt m start (o :: os)) :
    start ∈ seqCandidates m (pyStrip o) := by
  obtain ⟨c, hc, heq⟩ := h 0 (by simp)
  rw [Nat.add_zero] at hc
  exact (mem_seqCandidates_iff m (pyStrip o) start).2 ⟨c, dictGet_mem hc, heq⟩

/-- C4: in multi-line mode, the Sequence Matcher returns the first
candidate start (an added line whose trimmed content equals the trimmed
first original line, in insertion order) for which every offset `i` has
an indexed line `start + i` with trimmed content equal to the trimmed
`i`-th original line; it returns `none` exactly when no start fully
verifies; matching is trimmed equality, never fuzzy. -/
theorem find_sequence_multi_line_spec (m : FileIndex) (o : String)
    (os : List String) (hos : os ≠ []) :
    (∀ start, find_sequence_in_added m (o :: os) true = some start →
        start ∈ seqCandidates m (pyStrip o) ∧ SeqMatchesAt m start (o :: os) ∧
        ∃ pre post, seqCandidates m (pyStrip o) = pre ++ start :: post ∧
          ∀ s' ∈ pre, ¬ SeqMatchesAt m s' (o :: os)) ∧
    (find_sequence_in_added m (o :: os) true = none ↔
        ∀ start, ¬ SeqMatchesAt m start (o :: os)) ∧
    (∀ s', s' ∈ seqCandidates m (pyStrip o) ↔
        ∃ c', (s', c') ∈ m ∧ pyStrip c' = pyStrip o) := by
  cases os with
  | nil => exact absurd rfl hos
  | cons o1 os1 =>
    rw [find_sequence_multi_eq]
    refine ⟨?_, ?_, fun s' => mem_seqCandidates_iff m (pyStrip o) s'⟩
    · intro start h
      obtain ⟨hpred, pre, post, hsplit, hpre⟩ := find?_eq_some_split h
      refine ⟨hsplit ▸ List.mem_append_right _ (List.mem_cons_self _ _),
        (checkSeqFrom_eq_true_iff m _ _).1 hpred, pre, post, hsplit, ?_⟩
      intro s' hs' hmatch
      have := hpre s' hs'
      rw [(checkSeqFrom_eq_true_iff m _ _).2 hmatch] at this
      exact Bool.noConfusion this
    · constructor
      · intro h start hmatch
        have hmem := seqMatchesAt_mem_candidates hmatch
        have := List.find?_eq_none.1 h start hmem
        exact this ((checkSeqFrom_eq_true_iff m _ _).2 hmatch)
      · intro h
        refine List.find?_eq_none.2 ?_
        intro s' _ hpred
        exact h s' ((checkSeqFrom_eq_true_iff m _ _).1 hpred)

/-- C4 witness: the sequence ["a", "b"] is located at start line 1 in a
two-line file map, and every offset matches there. -/
theorem find_sequence_multi_line_spec_witness :
    find_sequence_in_added [(1, "a"), (2, "b")] ["a", "b"] true = some 1 ∧
    SeqMatchesAt [(1, "a"), (2, "b")] 1 ["a", "b"] :=
  ⟨by decide,
    (((find_sequence_multi_line_spec [(1, "a"), (2, "b")] "a" ["b"]
      (by decide)).1) 1 (by decide)).2.1⟩

/-- C10: on a per-file index whose entries are in ascending line-number
order (as the indexer produces for hunks in increasing new-side order),
the single-line Sequence Matcher returns the smallest line number whose
trimmed content equals the trimmed candidate line — a deterministic
lowest-line tie-break for duplicate identical added lines — and `none`
exactly when no line matches. -/
theorem find_sequence_single_line_lowest (m : FileIndex) (o : String)
    (allow_multi_line : Bool)
    (hsorted : m.Pairwise (fun a b => a.1 < b.1)) :
    (∀ ln, find_sequence_in_added m [o] allow_multi_line = some ln →
        (∃ c, (ln, c) ∈ m ∧ pyStrip c = pyStrip o) ∧
        ∀ ln' c', (ln', c') ∈ m → pyStrip c' = pyStrip o → ln ≤ ln') ∧
    (find_sequence_in_added m [o] allow_multi_line = none →
        ∀ ln c, (ln, c) ∈ m → pyStrip c ≠ pyStrip o) := by
  rw [find_sequence_single_eq]
  constructor
  · intro ln h
    rcases Option.map_eq_some'.1 h with ⟨p, hfind, hln⟩
    obtain ⟨hpred, pre, post, hsplit, hpre⟩ := find?_eq_some_split hfind
    subst hln
    have hpm : (p.1, p.2) ∈ m := by
      rw [hsplit]
      exact List.mem_append_right _ (List.mem_cons_self _ _)
    refine ⟨⟨p.2, hpm, beq_iff_eq.1 hpred⟩, ?_⟩
    intro ln' c' hmem heq
    rw [hsplit] at hmem hsorted
    rcases List.mem_append.1 hmem with hmem | hmem
    · exact absurd (beq_iff_eq.2 heq) (by simpa using hpre (ln', c') hmem)
    · rcases List.mem_cons.1 hmem with hmem | hmem
      · rw [show p.1 = (ln', c').1 from congrArg Prod.fst hmem.symm]
      · have := (List.pairwise_cons.1 (List.pairwise_append.1 hsorted).2.1).1
        exact Nat.le_of_lt (this (ln', c') hmem)
  · intro h ln c hmem heq
    have := List.find?_eq_none.1 (Option.map_eq_none'.1 h) (ln, c) hmem
    exact this (beq_iff_eq.2 heq)

/-- C10 witness: with duplicate added content "foo" at lines 2 and 3 of an
ascending index, the matcher resolves to line 2. -/
theorem find_sequence_single_line_lowest_witness :
    find_sequence_in_added [(1, "x"), (2, "foo"), (3, "foo")] ["foo"] false = some 2 ∧
    (∃ c, (2, c) ∈ ([(1, "x"), (2, "foo"), (3, "foo")] : FileIndex) ∧
      pyStrip c = pyStrip "foo") :=
  ⟨by decide,
    ((find_sequence_single_line_lowest [(1, "x"), (2, "foo"), (3, "foo")] "foo" false
      (by decide)).1 2 (by decide)).1⟩

/-- Multi-line suggestions are rejected by the matcher's guard when
multi-line mode is disabled. -/
theorem find_sequence_guard (m : FileIndex) (original : List String)
    (h : 1 < original.length) :
    find_sequence_in_added m original false = none := by
  unfold find_sequence_in_added
  simp [h]

/-- An accepted suggestion keeps its raw record in the `sug` field. -/
theorem validate_one_sug {added_index : AddedIndex} {allow_multi_line : Bool}
    {s : RawSuggestion} {v : ValidatedSuggestion}
    (h : validate_one added_index allow_multi_line s = some v) : v.sug = s := by
  unfold validate_one at h
  cases hfile : s.file with
  | none => rw [hfile] at h; exact Option.noConfusion h
  | some file =>
    cases horig : s.original with
    | none => rw [hfile, horig] at h; exact Option.noConfusion h
    | some original =>
      cases hrep : s.replacement with
      | none => rw [hfile, horig, hrep] at h; exact Option.noConfusion h
      | some replacement =>
        rw [hfile, horig, hrep] at h
        dsimp only at h
        split at h
        · exact Option.noConfusion h
        · split at h
          · exact Option.noConfusion h
          · split at h
            · exact Option.noConfusion h
            · cases h
              rfl

/-- The validator drops a suggestion exactly when one of the rejection
rules (a)-(e) fires. -/
theorem validate_one_eq_none_iff (added_index : AddedIndex)
    (allow_multi_line : Bool) (s : RawSuggestion) :
    validate_one added_index allow_multi_line s = none ↔
      violatesRules added_index allow_multi_line s = true := by
  unfold validate_one violatesRules
  cases hfile : s.file with
  | none => simp
  | some file =>
    cases horig : s.original with
    | none => simp
    | some original =>
      cases hrep : s.replacement with
      | none => simp
      | some replacement =>
        dsimp only
        by_cases hlen : original.length = 0 ∨ original.length ≠ replacement.length
        · have hb : (original.length == 0 || original.length != replacement.length) = true := by
            rcases hlen with h | h <;> simp [h]
          rw [if_pos hlen]
          simp [hb]
        · have hlen0 : original.length ≠ 0 := fun h => hlen (Or.inl h)
          have hleneq : ¬original.length ≠ replacement.length :=
            fun h => hlen (Or.inr h)
          have hrlen : original.length = replacement.length := Decidable.not_not.1 hleneq
          have hrne : ¬replacement = [] := by
            intro hh
            apply hlen0
            rw [hrlen, hh]
            rfl
          have hb : (original.length == 0 || original.length != replacement.length) = false := by
            simp [hrlen]
            exact hrne
          rw [if_neg hlen]
          cases hd : dictGet added_index file with
          | none => simp [hb]
          | some m =>
            cases hfind : find_sequence_in_added m original allow_multi_line with
            | none => simp [hb, hfind]
            | some start =>
              have hguard : (!allow_multi_line && decide (1 < original.length)) = false := by
                cases allow_multi_line with
                | true => simp
                | false =>
                  by_cases hl : 1 < original.length
                  · rw [find_sequence_guard m original hl] at hfind
                    exact Option.noConfusion hfind
                  · simp [hl]
              simp [hb, hfind, hguard]

/-- C3: the Suggestion Validator returns exactly the suggestions violating
none of the rejection rules (a)-(e); a violating suggestion is dropped
whole (without raising — the embedding is total), and each suggestion's
fate depends only on itself and the index, never on its siblings
(validation distributes over list concatenation). -/
theorem validator_rules_characterization (added_index : AddedIndex)
    (allow_multi_line : Bool) (suggestions : List RawSuggestion) :
    (∀ v ∈ validate_and_localize_suggestions (some suggestions) added_index allow_multi_line,
        v.sug ∈ suggestions ∧ violatesRules added_index allow_multi_line v.sug = false) ∧
    (∀ s ∈ suggestions, violatesRules added_index allow_multi_line s = false →
        ∃ v ∈ validate_and_localize_suggestions (some suggestions) added_index allow_multi_line,
          v.sug = s) ∧
    (∀ l₁ l₂ : List RawSuggestion,
        validate_and_localize_suggestions (some (l₁ ++ l₂)) added_index allow_multi_line =
          validate_and_localize_suggestions (some l₁) added_index allow_multi_line ++
            validate_and_localize_suggestions (some l₂) added_index allow_multi_line) := by
  refine ⟨?_, ?_, ?_⟩
  · intro v hv
    rw [validate_and_localize_suggestions] at hv
    rcases List.mem_filterMap.1 hv with ⟨s, hs, hval⟩
    have hsug := validate_one_sug hval
    rw [hsug]
    refine ⟨hs, ?_⟩
    by_contra hviol
    rw [Bool.not_eq_false, ← validate_one_eq_none_iff] at hviol
    rw [hviol] at hval
    exact Option.noConfusion hval
  · intro s hs hnv
    have hne : validate_one added_index allow_multi_line s ≠ none := by
      rw [Ne, validate_one_eq_none_iff, hnv]
      exact Bool.noConfusion
    obtain ⟨v, hv⟩ := Option.ne_none_iff_exists'.1 hne
    refine ⟨v, ?_, validate_one_sug hv⟩
    rw [validate_and_localize_suggestions]
    exact List.mem_filterMap.2 ⟨s, hs, hv⟩
  · intro l₁ l₂
    simp [validate_and_localize_suggestions, List.filterMap_append]

/-- C3 witness: the scenario suggestion violates no rule against the
scenario index and is accepted. -/
theorem validator_rules_characterization_witness :
    ∃ v ∈ validate_and_localize_suggestions (some [sugFoo]) indexAB false,
      v.sug = sugFoo :=
  (validator_rules_characterization indexAB false [sugFoo]).2.1 sugFoo
    (List.mem_singleton.2 rfl) (by decide)

/-- C5: a single-line suggestion whose trimmed original matches some added
line of its target file is accepted with `_line_start = _line_end` set to a
matching line; concretely, the §8 scenario suggestion resolves to
start = end = 2 and its rendered inline body ends with a fenced suggestion
block whose content is exactly `foobar`. -/
theorem single_line_suggestion_accepted :
    (∀ (added_index : AddedIndex) (allow_multi_line : Bool) (s : RawSuggestion)
        (file o : String) (replacement : List String) (m : FileIndex),
        s.file = some file → s.original = some [o] → s.replacement = some replacement →
        replacement.length = 1 → dictGet added_index file = some m →
        (∃ p ∈ m, pyStrip p.2 = pyStrip o) →
        ∃ v, validate_one added_index allow_multi_line s = some v ∧
          v.line_start = v.line_end ∧
          ∃ c, (v.line_start, c) ∈ m ∧ pyStrip c = pyStrip o) ∧
    (validate_and_localize_suggestions (some [sugFoo]) indexAB false =
        [⟨sugFoo, "A", ["foo"], ["foobar"], 2, 2⟩] ∧
      inline_comments_payload [⟨sugFoo, "A", ["foo"], ["foobar"], 2, 2⟩] false =
        [⟨"A", "S001 (low/improvement)\n\nmelhoria\n\n```suggestion\nfoobar\n```",
          none, 2⟩] ∧
      inlineBody ⟨sugFoo, "A", ["foo"], ["foobar"], 2, 2⟩ =
        "S001 (low/improvement)\n\nmelhoria\n\n" ++ "```suggestion\nfoobar\n```") := by
  constructor
  · intro added_index allow_multi_line s file o replacement m hfile horig hrep hrlen hm hex
    have hfindne : find_sequence_in_added m [o] allow_multi_line ≠ none := by
      rw [find_sequence_single_eq]
      intro hn
      rw [Option.map_eq_none'] at hn
      rcases hex with ⟨p, hp, heq⟩
      exact List.find?_eq_none.1 hn p hp (beq_iff_eq.2 heq)
    obtain ⟨start, hstart⟩ := Option.ne_none_iff_exists'.1 hfindne
    have hsingle := hstart
    rw [find_sequence_single_eq] at hsingle
    rcases Option.map_eq_some'.1 hsingle with ⟨q, hq, hq1⟩
    refine ⟨⟨s, file, [o], replacement, start, start + 1 - 1⟩, ?_, by simp, ?_⟩
    · unfold validate_one
      rw [hfile, horig, hrep]
      dsimp only
      rw [if_neg (by simp [hrlen]), hm]
      dsimp only
      rw [hstart]
      rfl
    · have hps := List.find?_some hq
      refine ⟨q.2, ?_, beq_iff_eq.1 hps⟩
      have : (q.1, q.2) ∈ m := List.mem_of_find?_eq_some hq
      simpa [hq1] using this
  · exact ⟨by decide, by decide, rfl⟩

/-- C5 witness: the scenario suggestion is accepted at line 2 of file A. -/
theorem single_line_suggestion_accepted_witness :
    ∃ v, validate_one indexAB false sugFoo = some v ∧ v.line_start = v.line_end ∧
      ∃ c, (v.line_start, c) ∈ [(2, "foo")] ∧ pyStrip c = pyStrip "foo" :=
  single_line_suggestion_accepted.1 indexAB false sugFoo "A" "foo" ["foobar"]
    [(2, "foo")] rfl rfl rfl rfl (by decide) (by decide)

/-- A prefix of a string exposes the string's leading characters. -/
theorem pyStartsWith_destruct {s pre : String} (h : pyStartsWith s pre = true) :
    ∃ t, s.data = pre.data ++ t := by
  rw [pyStartsWith, List.isPrefixOf_iff_prefix] at h
  obtain ⟨t, ht⟩ := h
  exact ⟨t, ht.symm⟩

/-- Differing head characters refute a prefix test. -/
theorem pyStartsWith_head_ne {s pre : String} {a b : Char} {as bs : List Char}
    (hs : s.data = a :: as) (hp : pre.data = b :: bs) (hne : a ≠ b) :
    pyStartsWith s pre = false := by
  rw [pyStartsWith, hs, hp]
  have hba : (b == a) = false := by
    rw [beq_eq_false_iff_ne]
    exact Ne.symm hne
  simp [List.isPrefixOf, hba]

/-- A prefix test also succeeds for every shorter pattern that the longer
pattern extends. -/
theorem pyStartsWith_trans {s q p : String} (h1 : pyStartsWith s q = true)
    (h2 : pyStartsWith q p = true) : pyStartsWith s p = true := by
  rw [pyStartsWith, List.isPrefixOf_iff_prefix] at h1 h2 ⊢
  exact h2.trans h1

/-- C6 counterexample: in `c6patch` the line `@@ bad @@` (index 4) is a
malformed hunk header (no `+N` group) and the following line `+y` (index
5) precedes any further hunk header, yet `+y` IS recorded (at line 2,
continuing the stale counter) — the claim says that stretch stays
unindexed. -/
theorem malformed_hunk_header_counterexample :
    (splitlines c6patch)[4]? = some "@@ bad @@" ∧
    pyStartsWith "@@ bad @@" "@@" = true ∧
    findPlusNum "@@ bad @@".data = none ∧
    (splitlines c6patch)[5]? = some "+y" ∧
    build_added_lines_index c6patch = [("A", [(1, "x"), (2, "y")])] := by
  decide

/-- C6 (amended): a malformed hunk header (`@@` with no `+N` group) is
itself skipped and leaves the whole indexer state — in particular the
line counter — unchanged, so subsequent lines keep being indexed from the
stale counter when one is set; lines arriving while the counter is unset
(and which are not file markers, fences or hunk headers) leave the state
unchanged, i.e. stay unindexed; the indexer is total and never raises. -/
theorem malformed_hunk_header_amended (st : IndexState) (line : String) :
    (pyStartsWith (rstripNl line) "@@" = true →
      findPlusNum (rstripNl line).data = none →
      stepLine st line = st) ∧
    (st.new_line_no = none →
      pyStartsWith (rstripNl line) "### " = false →
      pyStartsWith (rstripNl line) "```" = false →
      pyStartsWith (rstripNl line) "@@" = false →
      stepLine st line = st) := by
  obtain ⟨res, cf, ins, nl⟩ := st
  constructor
  · intro hat hnum
    obtain ⟨t, ht⟩ := pyStartsWith_destruct hat
    rw [show ("@@" : String).data = ['@', '@'] from rfl] at ht
    have h1 : pyStartsWith (rstripNl line) "### " = false :=
      pyStartsWith_head_ne ht rfl (by decide)
    have h2 : pyStartsWith (rstripNl line) "```diff" = false :=
      pyStartsWith_head_ne ht rfl (by decide)
    have h3 : pyStartsWith (rstripNl line) "```" = false :=
      pyStartsWith_head_ne ht rfl (by decide)
    unfold stepLine
    cases cf with
    | none => simp [h1, h2, h3]
    | some f =>
      cases ins with
      | false => simp [h1, h2, h3]
      | true => simp [h1, h2, h3, hat, hnum]
  · intro hnl h1 h3 hat
    have h2 : pyStartsWith (rstripNl line) "```diff" = false := by
      cases hq : pyStartsWith (rstripNl line) "```diff" with
      | false => rfl
      | true =>
        have hqq : pyStartsWith "```diff" "```" = true := by decide
        rw [pyStartsWith_trans hq hqq] at h3
        exact Bool.noConfusion h3
    dsimp only at hnl
    unfold stepLine
    cases cf with
    | none => simp [h1, h2, h3]
    | some f =>
      cases ins with
      | false => simp [h1, h2, h3]
      | true => simp [h1, h2, h3, hat, hnl]

/-- C6 amended witness: a malformed header inside a block, with the
counter at 5, leaves the state — counter included — unchanged. -/
theorem malformed_hunk_header_amended_witness :
    stepLine ⟨[("A", [])], some "A", true, some 5⟩ "@@ bad @@" =
      ⟨[("A", [])], some "A", true, some 5⟩ :=
  (malformed_hunk_header_amended ⟨[("A", [])], some "A", true, some 5⟩ "@@ bad @@").1
    (by decide) (by decide)

/-- C7 counterexample: in `c7patch` the file marker `### B` appears while
a fenced block is still open and the counter is 2; the very next line
`+x` is recorded for B at line 2 although no hunk header followed the
marker — so the marker neither leaves the block nor resets the counter. -/
theorem file_marker_counterexample :
    (splitlines c7patch)[3]? = some "### B" ∧
    (splitlines c7patch)[4]? = some "+x" ∧
    build_added_lines_index c7patch = [("A", []), ("B", [(2, "x")])] := by
  decide

/-- C7 (amended): a file-path marker line only sets the current file and
(re)initialises that file's entry to empty; the inside-block flag and the
new-line counter are left unchanged.  The counter and current file are
instead reset by a fence-close line met inside a block. -/
theorem file_marker_amended (st : IndexState) (line : String) :
    (pyStartsWith (rstripNl line) "### " = true →
      stepLine st line =
        { st with
            current_file := some (pyStrip (pyDrop (rstripNl line) 4)),
            result := dictInsert st.result (pyStrip (pyDrop (rstripNl line) 4)) [] } ∧
      (stepLine st line).inside = st.inside ∧
      (stepLine st line).new_line_no = st.new_line_no) ∧
    (pyStartsWith (rstripNl line) "```" = true →
      pyStartsWith (rstripNl line) "```diff" = false →
      st.inside = true →
      stepLine st line =
        { st with inside := false, current_file := none, new_line_no := none }) := by
  constructor
  · intro h1
    have hstep : stepLine st line =
        { st with
            current_file := some (pyStrip (pyDrop (rstripNl line) 4)),
            result := dictInsert st.result (pyStrip (pyDrop (rstripNl line) 4)) [] } := by
      unfold stepLine
      simp only [h1, if_pos]
    exact ⟨hstep, by rw [hstep], by rw [hstep]⟩
  · intro h3 h2 hin
    obtain ⟨t, ht⟩ := pyStartsWith_destruct h3
    rw [show ("```" : String).data = ['`', '`', '`'] from rfl] at ht
    have h1 : pyStartsWith (rstripNl line) "### " = false :=
      pyStartsWith_head_ne ht rfl (by decide)
    unfold stepLine
    simp [h1, h2, h3, hin]

/-- C7 amended witness: stepping the marker line `### B` with the counter
at 2 keeps `inside = true` and the counter at 2, and installs B with an
empty entry. -/
theorem file_marker_amended_witness :
    stepLine ⟨[("A", [])], some "A", true, some 2⟩ "### B" =
      ⟨[("A", []), ("B", [])], some "B", true, some 2⟩ :=
  ((file_marker_amended ⟨[("A", [])], some "A", true, some 2⟩ "### B").1
    (by decide)).1

/-- With no marked comment present, `upsert_main_comment` appends. -/
theorem upsert_of_no_marked {comments : List String} {body marker : String}
    (h : ∀ c ∈ comments, isMarked marker c = false) :
    upsert_main_comment comments body marker = comments ++ [body] := by
  induction comments with
  | nil => rfl
  | cons c rest ih =>
    have hc := h c (List.mem_cons_self _ _)
    rw [upsert_main_comment, if_neg (by simp [hc]),
      ih (fun x hx => h x (List.mem_cons_of_mem _ hx))]
    rfl

/-- With a marked comment present, `upsert_main_comment` replaces the
first marked comment in place. -/
theorem upsert_replaces_first {comments : List String} {body marker : String}
    (h : comments.any (isMarked marker) = true) :
    ∃ pre c post, comments = pre ++ c :: post ∧ isMarked marker c = true ∧
      (∀ x ∈ pre, isMarked marker x = false) ∧
      upsert_main_comment comments body marker = pre ++ body :: post := by
  induction comments with
  | nil => simp at h
  | cons c rest ih =>
    cases hc : isMarked marker c with
    | true =>
      refine ⟨[], c, rest, rfl, hc, by simp, ?_⟩
      rw [upsert_main_comment, if_pos (by simp [hc])]
      rfl
    | false =>
      have h' : rest.any (isMarked marker) = true := by simpa [hc] using h
      obtain ⟨pre, cc, post, heq, hm, hpre, hup⟩ := ih h'
      refine ⟨c :: pre, cc, post, by rw [heq, List.cons_append], hm, ?_, ?_⟩
      · intro x hx
        rcases List.mem_cons.1 hx with rfl | hx
        · exact hc
        · exact hpre x hx
      · rw [upsert_main_comment, if_neg (by simp [hc]), hup, List.cons_append]

/-- C9: the summary body always begins with the marker comment; applied to
a comment state already containing a marked comment, the upsert edits that
first marked comment in place (same number of comments); and from a state
with no marked comment, publishing twice leaves exactly one marked
comment (one comment was added in total). -/
theorem summary_publish_idempotent (summary verdict : String)
    (validated : List ValidatedSuggestion) (marker : String) (comments : List String) :
    isMarked marker (build_main_comment summary verdict validated marker) = true ∧
    (comments.any (isMarked marker) = true →
      ∃ pre c post, comments = pre ++ c :: post ∧ isMarked marker c = true ∧
        (∀ x ∈ pre, isMarked marker x = false) ∧
        upsert_main_comment comments
            (build_main_comment summary verdict validated marker) marker =
          pre ++ build_main_comment summary verdict validated marker :: post ∧
        (upsert_main_comment comments
            (build_main_comment summary verdict validated marker) marker).length =
          comments.length) ∧
    (comments.countP (isMarked marker) = 0 →
      (upsert_main_comment
          (upsert_main_comment comments
            (build_main_comment summary verdict validated marker) marker)
          (build_main_comment summary verdict validated marker) marker).countP
        (isMarked marker) = 1 ∧
      (upsert_main_comment
          (upsert_main_comment comments
            (build_main_comment summary verdict validated marker) marker)
          (build_main_comment summary verdict validated marker) marker).length =
        comments.length + 1) := by
  have hmarked : isMarked marker (build_main_comment summary verdict validated marker)
      = true := by
    rw [isMarked, build_main_comment]
    exact pyStartsWith_append _ _
  refine ⟨hmarked, ?_, ?_⟩
  · intro h
    obtain ⟨pre, c, post, heq, hm, hpre, hup⟩ := upsert_replaces_first h
    exact ⟨pre, c, post, heq, hm, hpre, hup, by rw [hup, heq]; simp⟩
  · intro h0
    have hall : ∀ c ∈ comments, isMarked marker c = false := by
      intro c hc
      have := List.countP_eq_zero.1 h0 c hc
      simpa using this
    have hfirst : upsert_main_comment comments
        (build_main_comment summary verdict validated marker) marker =
        comments ++ [build_main_comment summary verdict validated marker] :=
      upsert_of_no_marked hall
    have hany : (comments ++ [build_main_comment summary verdict validated marker]).any
        (isMarked marker) = true := by
      rw [List.any_eq_true]
      exact ⟨build_main_comment summary verdict validated marker,
        List.mem_append_right _ (List.mem_cons_self _ _), hmarked⟩
    rw [hfirst]
    obtain ⟨pre, c, post, heq, hm, hpre, hup⟩ := upsert_replaces_first hany
    constructor
    · rw [hup]
      have hcount : (comments ++ [build_main_comment summary verdict validated marker]).countP
          (isMarked marker) = 1 := by
        rw [List.countP_append, h0, List.countP_cons]
        simp [hmarked]
      rw [heq] at hcount
      rw [List.countP_append, List.countP_cons] at hcount ⊢
      simpa [hm, hmarked] using hcount
    · rw [hup]
      have : (pre ++ c :: post).length = comments.length + 1 := by
        rw [← heq]
        simp
      simpa using this

/-- C9 witness: publishing twice into an empty comment list leaves exactly
one marked summary comment. -/
theorem summary_publish_idempotent_witness :
    (upsert_main_comment
        (upsert_main_comment [] (build_main_comment "s" "OK" [] "m") "m")
        (build_main_comment "s" "OK" [] "m") "m").countP (isMarked "m") = 1 :=
  ((summary_publish_idempotent "s" "OK" [] "m" []).2.2 (by decide)).1

/-- C8 (amended): `extract_first_json` first tries the whole stripped
text (when it starts with an opening brace); on failure it tries the
substring from the first opening brace to the LAST closing brace — not
the first balanced object; when both attempts fail it returns the
fallback object (summary "Falha ao parsear JSON retornado pelo modelo.",
verdict "Needs Work", empty suggestions) instead of raising. -/
theorem extract_first_json_heuristic (text : String) :
    (∀ v, pyStartsWith (pyStrip text) "\x7b" = true →
        json_loads (pyStrip text) = some v → extract_first_json text = v) ∧
    ((pyStartsWith (pyStrip text) "\x7b" = true → json_loads (pyStrip text) = none) →
      (∀ v, braceAttempt (pyStrip text) = some v → extract_first_json text = v) ∧
      (braceAttempt (pyStrip text) = none →
        extract_first_json text = fallbackJson)) := by
  constructor
  · intro v hs hl
    unfold extract_first_json
    simp [hs, hl]
  · intro himp
    constructor
    · intro v hb
      unfold extract_first_json
      cases hstart : pyStartsWith (pyStrip text) "\x7b" with
      | true => simp [hstart, himp hstart, hb]
      | false => simp [hstart, hb]
    · intro hb
      unfold extract_first_json
      cases hstart : pyStartsWith (pyStrip text) "\x7b" with
      | true => simp [hstart, himp hstart, hb]
      | false => simp [hstart, hb]

/-- C8 amended witness: a text with leading and trailing noise is parsed
through the first-to-last-brace attempt. -/
theorem extract_first_json_heuristic_witness :
    extract_first_json "ruido \x7b\"a\": 1\x7d ruido" =
      JVal.jobj [("a", JVal.jnum 1)] :=
  ((extract_first_json_heuristic "ruido \x7b\"a\": 1\x7d ruido").2
    (fun h => absurd h (by decide))).1 (JVal.jobj [("a", JVal.jnum 1)]) rfl

/-- C8 counterexample: on the text consisting of two empty objects, the
first balanced JSON object parses (to the empty object), yet
`extract_first_json` returns the fallback — whose summary string is also
not the claim's "parse failure". -/
theorem extract_first_json_counterexample :
    firstBalancedObject cBadJson = some "\x7b\x7d" ∧
    json_loads "\x7b\x7d" = some (JVal.jobj []) ∧
    extract_first_json cBadJson = fallbackJson ∧
    fallbackJson ≠ JVal.jobj [] ∧
    fallbackJson ≠ JVal.jobj [("summary", JVal.jstr "parse failure"),
      ("verdict", JVal.jstr "Needs Work"), ("suggestions", JVal.jarr [])] := by
  refine ⟨rfl, rfl, rfl, ?_, ?_⟩
  · intro h
    simp [fallbackJson] at h
  · intro h
    simp [fallbackJson] at h

end PrAnalyzer
